import Mathlib

/-!
# Verification of the coordinate-based contact extraction core

Shallow embedding of `python_scraper/pdf_extract.py`, `python_scraper/pairing.py`
and `python_scraper/models.py`.  Geometry coordinates are modelled as exact
rationals (the Python code uses floats only on small decimal inputs), strings as
Lean `String`s restricted to the ASCII behaviour of Python's `str` methods, and
the three regular expressions (`EMAIL_PATTERN`, `PHONE_PATTERN`, `NAME_PATTERN`)
as executable matchers that reproduce Python `re`'s leftmost, greedy,
backtracking semantics on those particular patterns.
-/

namespace PageScrape

/-! ## Character and string helpers (ASCII model of Python `str` methods) -/

/-- Python `str.lower()` restricted to ASCII, applied characterwise. -/
def pyLower (s : String) : String :=
  String.mk (s.data.map Char.toLower)

/-- Does `needle` start `hay`? (list-of-chars matching) -/
def startsWithChars : List Char → List Char → Bool
  | [], _ => true
  | _ :: _, [] => false
  | a :: as, b :: bs => a == b && startsWithChars as bs

/-- Python's `needle in hay` substring test on lists of characters. -/
def hasSub (needle : List Char) : List Char → Bool
  | [] => startsWithChars needle []
  | c :: cs => startsWithChars needle (c :: cs) || hasSub needle cs

/-- First character exists and is an upper-case letter
(Python `text and text[0].isupper()`, ASCII model). -/
def firstUpper (s : String) : Bool :=
  match s.data with
  | [] => false
  | c :: _ => c.isUpper

/-! ## `EMAIL_PATTERN = [a-zA-Z0-9._%+-]+@[a-zA-Z0-9.-]+\.[a-zA-Z]{2,}` -/

/-- Characters of the local-part class `[a-zA-Z0-9._%+-]`. -/
def isLocalChar (c : Char) : Bool :=
  c.isAlpha || c.isDigit || c == '.' || c == '_' || c == '%' || c == '+' || c == '-'

/-- Characters of the domain class `[a-zA-Z0-9.-]`. -/
def isDomainChar (c : Char) : Bool :=
  c.isAlpha || c.isDigit || c == '.' || c == '-'

/-- Backtracking of the greedy `[a-zA-Z0-9.-]+` against the mandatory
`\.[a-zA-Z]{2,}` tail: try consuming `j+1` domain characters, longest first.
Returns the number of characters of `r2` consumed by the whole domain suffix. -/
def tryDom (r2 : List Char) : Nat → Option Nat
  | 0 => none
  | j + 1 =>
    match r2.drop (j + 1) with
    | '.' :: tl =>
      let lr := (tl.takeWhile Char.isAlpha).length
      if 2 ≤ lr then some (j + 1 + 1 + lr) else tryDom r2 j
    | _ => tryDom r2 j

/-- Try to match `EMAIL_PATTERN` anchored at the start of `cs`; returns the
total number of characters matched (Python `re` greedy semantics: the
local-part run and the trailing letter run are maximal, the domain run
backtracks from longest). -/
def matchEmailAt (cs : List Char) : Option Nat :=
  let localRun := cs.takeWhile isLocalChar
  if localRun.isEmpty then none
  else
    match cs.drop localRun.length with
    | '@' :: r2 =>
      let b := r2.takeWhile isDomainChar
      match tryDom r2 b.length with
      | some dn => some (localRun.length + 1 + dn)
      | none => none
    | _ => none

/-- `EMAIL_PATTERN.findall`: scan left to right, emit each leftmost match and
continue after its end (non-overlapping).  The `fuel` argument only bounds the
recursion depth; every step shortens the character list by at least one while
spending one unit of fuel, so with `fuel = cs.length` (as in `emailFindAll`)
the zero-fuel branch is never taken. -/
def emailScanAux : Nat → List Char → List String
  | 0, _ => []
  | _ + 1, [] => []
  | fuel + 1, c :: cs =>
    match matchEmailAt (c :: cs) with
    | some n => String.mk ((c :: cs).take n) :: emailScanAux fuel (cs.drop (n - 1))
    | none => emailScanAux fuel cs

/-- `EMAIL_PATTERN.findall(s)`. -/
def emailFindAll (s : String) : List String :=
  emailScanAux s.data.length s.data

/-! ## `PHONE_PATTERN = \(?\d{3}\)?[-.\s]?\d{3}[-.\s]?\d{4}` -/

/-- ASCII `\s` class. -/
def isSpaceChar (c : Char) : Bool :=
  c == ' ' || c == '\t' || c == '\n' || c == '\r' || c == '\x0b' || c == '\x0c'

/-- The separator class `[-.\s]`. -/
def isSepChar (c : Char) : Bool :=
  c == '-' || c == '.' || isSpaceChar c

/-- Consume an optional single character satisfying `p` (`X?`).  For
`PHONE_PATTERN` each optional item is deterministic: whenever the present
character satisfies the class, skipping it cannot lead to a match (parentheses
and separators are never digits), so greedy consumption needs no backtracking. -/
def consumeOpt (p : Char → Bool) : List Char → List Char × List Char
  | [] => ([], [])
  | c :: cs => if p c then ([c], cs) else ([], c :: cs)

/-- Consume exactly `n` digit characters (`\d{n}`). -/
def consumeDigits : Nat → List Char → Option (List Char × List Char)
  | 0, cs => some ([], cs)
  | _ + 1, [] => none
  | n + 1, c :: cs =>
    if c.isDigit then
      match consumeDigits n cs with
      | some (ds, r) => some (c :: ds, r)
      | none => none
    else none

/-- Try to match `PHONE_PATTERN` anchored at the start of `cs`; returns the
matched characters. -/
def matchPhoneAt (cs : List Char) : Option (List Char) :=
  let o1 := consumeOpt (· == '(') cs
  match consumeDigits 3 o1.2 with
  | none => none
  | some (d1, r2) =>
    let o2 := consumeOpt (· == ')') r2
    let o3 := consumeOpt isSepChar o2.2
    match consumeDigits 3 o3.2 with
    | none => none
    | some (d2, r5) =>
      let o4 := consumeOpt isSepChar r5
      match consumeDigits 4 o4.2 with
      | none => none
      | some (d3, _) => some (o1.1 ++ d1 ++ o2.1 ++ o3.1 ++ d2 ++ o4.1 ++ d3)

/-- Leftmost match of `PHONE_PATTERN` in a character list
(`PHONE_PATTERN.findall(s)[0]` when the findall result is non-empty). -/
def phoneScanFirst : List Char → Option (List Char)
  | [] => none
  | c :: cs =>
    match matchPhoneAt (c :: cs) with
    | some m => some m
    | none => phoneScanFirst cs

/-- First `PHONE_PATTERN` match in a string, `none` when `findall` is empty. -/
def phoneFirstMatch (s : String) : Option String :=
  (phoneScanFirst s.data).map String.mk

/-! ## `NAME_PATTERN`: an upper-case letter, then 1 to 48 characters drawn
from letters, apostrophe, hyphen, period and whitespace, then a letter, then
the end anchor. -/

/-- The middle character class of `NAME_PATTERN`: letters, the apostrophe
(code point 39), hyphen, period, whitespace. -/
def isMidChar (c : Char) : Bool :=
  c.isAlpha || c == Char.ofNat 39 || c == '-' || c == '.' || isSpaceChar c

/-- Python `$` (no MULTILINE): end of string, or just before one trailing
newline. -/
def endOk (cs : List Char) : Bool :=
  match cs with
  | [] => true
  | [c] => c == '\n'
  | _ => false

/-- After the leading `[A-Z]`: can `cs` be split as `middle^j ++ [letter] ++ end`
with `minNeed ≤ j` middle-class characters still required and at most
`maxAllow` more allowed?  The boolean disjunction covers every backtracking
order of the greedy `{1,48}`. -/
def nameAfterFirst : Nat → Nat → List Char → Bool
  | _, _, [] => false
  | minNeed, maxAllow, c :: cs =>
    (decide (minNeed = 0) && c.isAlpha && endOk cs) ||
    (decide (0 < maxAllow) && isMidChar c && nameAfterFirst (minNeed - 1) (maxAllow - 1) cs)

/-- `NAME_PATTERN` match on a character list: leading `[A-Z]`, then the
middle-and-final-letter tail. -/
def nameMatchList : List Char → Bool
  | [] => false
  | c :: cs => c.isUpper && nameAfterFirst 1 48 cs

/-- `NAME_PATTERN.match(s)` as a boolean (the pattern is anchored on both
sides). -/
def nameMatch (s : String) : Bool :=
  nameMatchList s.data

/-! ## Blacklist and name validation (`pdf_extract.py` lines 15-73) -/

/-- `BLACKLIST` from `pdf_extract.py`. -/
def BLACKLIST : List String :=
  ["contact", "email", "phone", "website", "address", "location",
   "sign in", "log in", "sign up", "log out", "register", "login",
   "get help", "contact us", "about us", "view profile", "view all",
   "learn more", "read more", "see more", "show more", "load more",
   "find an agent", "find a", "search", "filter", "back to",
   "click here", "more info", "details",
   "menu", "home", "listings", "properties", "agents",
   "about", "services", "resources", "blog", "news",
   "compass", "compass one", "compass luxury", "compass academy", "compass plus",
   "compass cares", "private exclusives", "coming soon",
   "new development", "recently sold", "sales leadership",
   "neighborhood guides", "mortgage calculator", "external suppliers",
   "agent", "broker", "realtor", "licensed", "certified",
   "team", "group", "partners", "associates",
   "name", "first name", "last name", "full name",
   "your name", "enter name", "user name", "username",
   "manhattan", "brooklyn", "queens", "bronx", "staten island",
   "new york", "ny", "nyc", "city", "state", "zip"]

/-- The `ui_words` list of `is_valid_name`. -/
def UI_WORDS : List String :=
  ["find", "agent", "last name", "first name", "register", "login", "view", "profile"]

/-- `is_valid_name` from `pdf_extract.py`. -/
def is_valid_name (text : String) : Bool :=
  if text.length < 2 ∨ 50 < text.length then false
  else if pyLower text ∈ BLACKLIST then false
  else if UI_WORDS.any (fun w => hasSub w.data (pyLower text).data) then false
  else if firstUpper text = false then false
  else nameMatch text

/-! ## Data model (`models.py`) -/

/-- `PdfWord`: one positioned token. -/
structure PdfWord where
  text : String
  x0 : ℚ
  y0 : ℚ
  x1 : ℚ
  y1 : ℚ
  page_num : ℕ
deriving DecidableEq, Repr

/-- `PdfWord.center_x`. -/
def PdfWord.center_x (w : PdfWord) : ℚ := (w.x0 + w.x1) / 2

/-- `PdfWord.center_y`. -/
def PdfWord.center_y (w : PdfWord) : ℚ := (w.y0 + w.y1) / 2

/-- The `email_coords` dictionary `{x, y, page}` of a `PdfContact`. -/
structure EmailCoords where
  x : ℚ
  y : ℚ
  page : ℕ
deriving DecidableEq, Repr

/-- `PdfContact`: intermediate extraction record. -/
structure PdfContact where
  email : String
  name : Option String
  phone : Option String
  email_coords : EmailCoords
  page_num : ℕ
deriving DecidableEq, Repr

/-- `Contact`: the final output record. -/
structure Contact where
  name : Option String
  email : String
  phone : Option String
  profileUrl : Option String
  source : String
  confidence : String
  domain : Option String
  domainType : Option String
deriving DecidableEq, Repr

/-! ## Stable sort by the second (distance) component

Python's `list.sort(key=lambda x: x[1])` is a stable ascending sort by key;
insertion sort with the non-strict key order is stable as well, and any two
stable sorts under the same total preorder agree. -/

/-- Comparison by distance component. -/
def sndLE {α : Type} (a b : α × ℚ) : Prop := a.2 ≤ b.2

instance {α : Type} : DecidableRel (@sndLE α) :=
  fun a b => inferInstanceAs (Decidable (a.2 ≤ b.2))

instance {α : Type} : IsTotal (α × ℚ) sndLE :=
  ⟨fun a b => le_total a.2 b.2⟩

instance {α : Type} : IsTrans (α × ℚ) sndLE :=
  ⟨fun _ _ _ h₁ h₂ => le_trans h₁ h₂⟩

/-- `candidates.sort(key=lambda x: x[1])`. -/
def sortBySnd {α : Type} (l : List (α × ℚ)) : List (α × ℚ) :=
  List.insertionSort sndLE l

/-! ## Email discovery (`find_emails_in_words`, lines 111-128) -/

/-- `find_emails_in_words`: every pattern match in every token, lower-cased,
paired with its token, in input order. -/
def find_emails_in_words (words : List PdfWord) : List (String × PdfWord) :=
  words.flatMap (fun w => (emailFindAll w.text).map (fun m => (pyLower m, w)))

/-! ## Name search above the email (`find_name_above_email`, lines 131-230) -/

/-- The candidate filter of the name search: same page, vertical center in
`[email.y0 - sd, email.y0]`, horizontal center in
`[email.center_x - xt, email.center_x + xt]`, first character upper-case. -/
def nameCandidateFilter (e : PdfWord) (sd xt : ℚ) (w : PdfWord) : Bool :=
  w.page_num == e.page_num &&
  decide (e.y0 - sd ≤ w.center_y ∧ w.center_y ≤ e.y0) &&
  decide (e.center_x - xt ≤ w.center_x ∧ w.center_x ≤ e.center_x + xt) &&
  firstUpper w.text

/-- Page and band test alone (the "search window" of the spec, without the
capitalization filter). -/
def inNameWindow (e : PdfWord) (sd xt : ℚ) (w : PdfWord) : Bool :=
  w.page_num == e.page_num &&
  decide (e.y0 - sd ≤ w.center_y ∧ w.center_y ≤ e.y0) &&
  decide (e.center_x - xt ≤ w.center_x ∧ w.center_x ≤ e.center_x + xt)

/-- In-window capitalized candidates with their vertical distance
`|center_y - email.y0|`, in input order. -/
def windowCandidates (e : PdfWord) (ws : List PdfWord) (sd xt : ℚ) :
    List (PdfWord × ℚ) :=
  (ws.filter (nameCandidateFilter e sd xt)).map (fun w => (w, |w.center_y - e.y0|))

/-- Join character groups with single spaces. -/
def joinSpaceChars : List (List Char) → List Char
  | [] => []
  | [g] => g
  | g :: gs => g ++ ' ' :: joinSpaceChars gs

/-- Python `' '.join(l)`. -/
def joinSpace (l : List String) : String :=
  String.mk (joinSpaceChars (l.map String.data))

/-- Close out the `current_group`: join texts, average distances, keep the span
only if the validator accepts it (lines 205-210 / 219-223). -/
def flushGroup (cur : List (PdfWord × ℚ)) : List (String × ℚ) :=
  match cur with
  | [] => []
  | _ =>
    if is_valid_name (joinSpace (cur.map (fun p => p.1.text))) then
      [(joinSpace (cur.map (fun p => p.1.text)),
        (cur.map (fun p => p.2)).sum / (cur.length : ℚ))]
    else []

/-- The same-line test of the grouping walk (lines 198-201). -/
def sameLine (w : PdfWord) (lastY lastX : Option ℚ) : Bool :=
  match lastY, lastX with
  | some ly, some lx => decide (|w.y0 - ly| < 5 ∧ |w.x0 - lx| < 150)
  | _, _ => false

/-- The grouping loop over distance-sorted candidates (lines 190-223),
accumulating completed validated spans in `nc`. -/
def groupLoop : List (PdfWord × ℚ) → List (String × ℚ) → List (PdfWord × ℚ) →
    Option ℚ → Option ℚ → List (String × ℚ)
  | [], nc, cur, _, _ => nc ++ flushGroup cur
  | (w, d) :: rest, nc, cur, lastY, lastX =>
    if sameLine w lastY lastX then
      groupLoop rest nc (cur ++ [(w, d)]) (some w.y0) (some w.x1)
    else
      groupLoop rest (nc ++ flushGroup cur) [(w, d)] (some w.y0) (some w.x1)

/-- The `name_candidates` list of `find_name_above_email`: validated spans with
their mean distances. -/
def nameSpans (e : PdfWord) (ws : List PdfWord) (sd xt : ℚ) : List (String × ℚ) :=
  groupLoop (sortBySnd (windowCandidates e ws sd xt)) [] [] none none

/-- `find_name_above_email` (defaults at the call site: `sd = 60`, `xt = 100`). -/
def find_name_above_email (email_word : PdfWord) (all_words : List PdfWord)
    (search_distance x_tolerance : ℚ) : Option String :=
  if (windowCandidates email_word all_words search_distance x_tolerance).isEmpty then none
  else
    match sortBySnd (nameSpans email_word all_words search_distance x_tolerance) with
    | [] => none
    | (t, _) :: _ => some t

/-! ## Phone search below the email and normalization (lines 233-294) -/

/-- The phone normalization of lines 286-292: strip non-digits, then
re-format 10-digit and 1-leading 11-digit numbers, otherwise return the raw
match unchanged. -/
def normalize_phone (phone : String) : String :=
  let ds := phone.data.filter Char.isDigit
  if ds.length = 10 then
    String.mk ('+' :: '1' :: '-' ::
      (ds.take 3 ++ '-' :: ((ds.drop 3).take 3 ++ '-' :: ds.drop 6)))
  else if ds.length = 11 ∧ ds.head? = some '1' then
    String.mk ('+' :: ds.take 1 ++ '-' ::
      ((ds.drop 1).take 3 ++ '-' :: ((ds.drop 4).take 3 ++ '-' :: ds.drop 7)))
  else phone

/-- The `phone_candidates` of `find_phone_below_email`: first phone match of
each in-window token, with its vertical distance `|center_y - email.y1|`. -/
def phoneWindowCandidates (e : PdfWord) (ws : List PdfWord) (sd xt : ℚ) :
    List (String × ℚ) :=
  ws.filterMap (fun w =>
    if w.page_num == e.page_num &&
       decide (e.y1 ≤ w.center_y ∧ w.center_y ≤ e.y1 + sd) &&
       decide (e.center_x - xt ≤ w.center_x ∧ w.center_x ≤ e.center_x + xt) then
      match phoneFirstMatch w.text with
      | some m => some (m, |w.center_y - e.y1|)
      | none => none
    else none)

/-- `find_phone_below_email` (defaults at the call site: `sd = 40`, `xt = 100`). -/
def find_phone_below_email (email_word : PdfWord) (all_words : List PdfWord)
    (search_distance x_tolerance : ℚ) : Option String :=
  match sortBySnd (phoneWindowCandidates email_word all_words search_distance x_tolerance) with
  | [] => none
  | (ph, _) :: _ => some (normalize_phone ph)

/-! ## Extraction driver (`extract_contacts_from_pdf`, lines 297-356)

The file-system boundary (PDF open, `FileNotFoundError`) belongs to the
excluded collaborator; the core consumes the positioned-word list directly. -/

/-- Build the `PdfContact` for one unique email (lines 335-352). -/
def buildContact (ws : List PdfWord) (email_text : String) (email_word : PdfWord) :
    PdfContact :=
  { email := email_text
    name := find_name_above_email email_word ws 60 100
    phone := find_phone_below_email email_word ws 40 100
    email_coords := ⟨email_word.center_x, email_word.center_y, email_word.page_num⟩
    page_num := email_word.page_num }

/-- The per-email loop with its `seen_emails` set (lines 326-354). -/
def extractLoop (ws : List PdfWord) :
    List (String × PdfWord) → List String → List PdfContact → List PdfContact
  | [], _, acc => acc
  | (et, ew) :: rest, seen, acc =>
    if et ∈ seen then extractLoop ws rest seen acc
    else extractLoop ws rest (et :: seen) (acc ++ [buildContact ws et ew])

/-- `extract_contacts_from_pdf` from the positioned-word list onward
(lines 313-356). -/
def extract_contacts_from_words (all_words : List PdfWord) : List PdfContact :=
  if all_words.isEmpty then []
  else if (find_emails_in_words all_words).isEmpty then []
  else extractLoop all_words (find_emails_in_words all_words) [] []

/-! ## Pairing and classification (`pairing.py`) -/

/-- `GENERIC_PREFIXES` from `pairing.py`. -/
def GENERIC_PREFIXES : List String :=
  ["info", "contact", "admin", "support", "help", "sales",
   "hello", "team", "office", "mail", "noreply", "no-reply"]

/-- `PERSONAL_DOMAINS` from `pairing.py`. -/
def PERSONAL_DOMAINS : List String :=
  ["gmail.com", "yahoo.com", "hotmail.com", "outlook.com", "aol.com",
   "icloud.com", "me.com", "mac.com", "protonmail.com", "mail.com",
   "yandex.com", "gmx.com", "zoho.com", "live.com", "msn.com"]

/-- Python `s.split(sep)` for a single separator character, and
`re.split` on a single-character class: cut at every separator occurrence,
keeping empty segments. -/
def splitPred (p : Char → Bool) (cs : List Char) : List (List Char) :=
  cs.foldr
    (fun c acc =>
      if p c then [] :: acc
      else
        match acc with
        | [] => [[c]]
        | g :: gs => (c :: g) :: gs)
    [[]]

/-- `extract_domain`: `email.split('@')[1].lower()` when `'@' in email`
(the segment between the first and second at-sign). -/
def extract_domain (email : String) : Option String :=
  if email.data.contains '@' then
    some (pyLower (String.mk (((splitPred (· == '@') email.data).get? 1).getD [])))
  else none

/-- `classify_domain`. -/
def classify_domain (domain : Option String) : String :=
  match domain with
  | none => "personal"
  | some d =>
    if d = "" then "personal"
    else if d ∈ PERSONAL_DOMAINS then "personal"
    else "business"

/-- Python `part.capitalize()` on an all-ASCII part: first character
upper-cased, the rest lower-cased. -/
def pyCapitalize (s : String) : String :=
  match s.data with
  | [] => ""
  | c :: cs => String.mk (c.toUpper :: cs.map Char.toLower)

/-- The per-segment filter of `derive_name_from_email` (lines 81-95). -/
def deriveParts (parts : List String) : List String :=
  parts.foldl (fun acc part =>
    if part = "" then acc
    else if part.data.all Char.isDigit then acc
    else if part.length = 1 ∧ part.data.all Char.isAlpha then
      acc ++ [String.mk (part.data.map Char.toUpper) ++ "."]
    else acc ++ [pyCapitalize part]) []

/-- `derive_name_from_email`. -/
def derive_name_from_email (email : String) : String :=
  if ¬ email.data.contains '@' then "Unknown"
  else
    let localPart := pyLower (String.mk (((splitPred (· == '@') email.data).get? 0).getD []))
    if localPart ∈ GENERIC_PREFIXES then "Unknown"
    else
      let name_parts := deriveParts
        ((splitPred (fun c => c == '.' || c == '_' || c == '-') localPart.data).map String.mk)
      if name_parts.isEmpty then "Unknown"
      else joinSpace name_parts

/-- `bool(contact.name and contact.name != "Unknown")`. -/
def hasNameB (c : Contact) : Bool :=
  match c.name with
  | none => false
  | some n => decide (n ≠ "") && decide (n ≠ "Unknown")

/-- `bool(contact.email)`. -/
def hasEmailB (c : Contact) : Bool :=
  decide (c.email ≠ "")

/-- `bool(contact.phone)`. -/
def hasPhoneB (c : Contact) : Bool :=
  match c.phone with
  | none => false
  | some p => decide (p ≠ "")

/-- `calculate_confidence` from `pairing.py`. -/
def calculate_confidence (c : Contact) : String :=
  if hasNameB c && hasEmailB c && hasPhoneB c then "high"
  else if (hasNameB c && hasEmailB c) || (hasEmailB c && hasPhoneB c) then "medium"
  else "low"

/-- The loop body of `process_pdf_contacts` for a single `PdfContact`
(lines 141-166; `page_url` is never read by the body). -/
def processOne (pc : PdfContact) : Contact :=
  let name :=
    match pc.name with
    | none => derive_name_from_email pc.email
    | some n => if n = "" then derive_name_from_email pc.email else n
  let domain := extract_domain pc.email
  let base : Contact :=
    { name := if name = "Unknown" then none else some name
      email := pc.email
      phone := pc.phone
      profileUrl := none
      source := "pdf"
      confidence := "medium"
      domain := domain
      domainType := some (classify_domain domain) }
  { base with confidence := calculate_confidence base }

/-- `process_pdf_contacts`. -/
def process_pdf_contacts (pdf_contacts : List PdfContact) (page_url : String) :
    List Contact :=
  pdf_contacts.map processOne

/-- The full pipeline as composed by the CLI: extraction over the positioned
words, then pairing and classification. -/
def run_pipeline (words : List PdfWord) (page_url : String) : List Contact :=
  process_pdf_contacts (extract_contacts_from_words words) page_url

/-! ## The confidence table in the spec's words (refinement reference)

Modelled from the spec, for comparison with `calculate_confidence`:
"`high` if name (non-placeholder), email, and phone are all present; `medium`
if (name and email) or (email and phone); `low` otherwise." -/

/-- Spec-side confidence table over the three presence booleans. -/
def confidenceSpec (hn he hp : Bool) : String :=
  if hn && he && hp then "high"
  else if (hn && he) || (he && hp) then "medium"
  else "low"

/-- Rank of a confidence tier, for the monotonicity statements. -/
def confRank (s : String) : ℕ :=
  if s = "high" then 2 else if s = "medium" then 1 else 0

/-! ## Concrete scenario tokens (spec §8, "spatial pairing") -/

/-- "Jane Doe" at x around 100, y from 40 to 55, page 0. -/
def cw1 : PdfWord := ⟨"Jane Doe", 90, 40, 110, 55, 0⟩

/-- "jane.doe@example.com" at x around 95, y from 60 to 72, page 0. -/
def cw2 : PdfWord := ⟨"jane.doe@example.com", 85, 60, 105, 72, 0⟩

/-- "212-555-0100" at x around 98, y from 75 to 88, page 0. -/
def cw3 : PdfWord := ⟨"212-555-0100", 88, 75, 108, 88, 0⟩

/-- The scenario token list. -/
def cws : List PdfWord := [cw1, cw2, cw3]

/-! # Theorems -/

/-- Every blacklist entry is already lower-cased. -/
theorem blacklist_lower : ∀ b ∈ BLACKLIST, pyLower b = b := by decide

/-- C1: on the three scenario tokens — "Jane Doe" with bounding box x around
100 and y from 40 to 55, "jane.doe@example.com" with x around 95 and y from 60
to 72, "212-555-0100" with x around 98 and y from 75 to 88, all on page 0 —
the full pipeline (email discovery, spatial name and phone search, pairing and
classification) returns exactly one Contact, with name "Jane Doe", email
"jane.doe@example.com", phone "+1-212-555-0100", domain "example.com",
domainType "business" and confidence "high", for every page URL. -/
theorem spatial_pairing_scenario (url : String) :
    run_pipeline cws url =
      [{ name := some "Jane Doe"
         email := "jane.doe@example.com"
         phone := some "+1-212-555-0100"
         profileUrl := none
         source := "pdf"
         confidence := "high"
         domain := some "example.com"
         domainType := some "business" }] := by
  simp only [run_pipeline, process_pdf_contacts]
  with_unfolding_all decide

/-- C4: phone normalization maps "212-555-0100" and the 11-digit "12125550100"
to the canonical "+1-212-555-0100", and returns any raw match unchanged when
its digit count is neither 10 nor 11-with-leading-1. -/
theorem phone_normalization :
    normalize_phone "212-555-0100" = "+1-212-555-0100" ∧
    normalize_phone "12125550100" = "+1-212-555-0100" ∧
    ∀ s : String,
      ¬ (s.data.filter Char.isDigit).length = 10 →
      ¬ ((s.data.filter Char.isDigit).length = 11 ∧
         (s.data.filter Char.isDigit).head? = some '1') →
      normalize_phone s = s := by
  refine ⟨by decide, by decide, ?_⟩
  intro s h10 h11
  simp only [normalize_phone]
  rw [if_neg h10, if_neg h11]

/-- Witness for C4 at a 8-digit raw match: returned unchanged. -/
theorem phone_normalization_witness : normalize_phone "555-0100" = "555-0100" :=
  phone_normalization.2.2 "555-0100" (by decide) (by decide)

/-- C6: the name validator rejects every string that is a case-insensitive
match of a blacklist entry, and every string of length under 2 or over 50. -/
theorem name_validator_soundness (s : String) :
    ((∃ b ∈ BLACKLIST, pyLower s = pyLower b) → is_valid_name s = false) ∧
    ((s.length < 2 ∨ 50 < s.length) → is_valid_name s = false) := by
  constructor
  · rintro ⟨b, hb, heq⟩
    have hmem : pyLower s ∈ BLACKLIST := by
      rw [heq, blacklist_lower b hb]; exact hb
    simp only [is_valid_name]
    by_cases h1 : s.length < 2 ∨ 50 < s.length
    · rw [if_pos h1]
    · rw [if_neg h1, if_pos hmem]
  · intro h1
    simp only [is_valid_name]
    rw [if_pos h1]

/-- Witness for C6: "CONTACT" (upper-case blacklist entry) and the 1-character
"A" are both rejected. -/
theorem name_validator_soundness_witness :
    is_valid_name "CONTACT" = false ∧ is_valid_name "A" = false :=
  ⟨(name_validator_soundness "CONTACT").1 ⟨"contact", by decide, by decide⟩,
   (name_validator_soundness "A").2 (by decide)⟩

/-- C10: no string of length exactly 2 passes the name-shaped pattern (it
needs a leading upper-case letter, at least one middle character and a
trailing letter, hence at least 3 characters), so the validator rejects every
2-character string even though the length rule alone admits it. -/
theorem two_char_names_rejected (s : String) (h : s.length = 2) :
    nameMatch s = false ∧ is_valid_name s = false := by
  have hlen : s.data.length = 2 := h
  obtain ⟨a, b, hab⟩ := List.length_eq_two.mp hlen
  have hnm : nameMatch s = false := by
    simp only [nameMatch, hab, nameMatchList, nameAfterFirst, endOk]
    simp
  refine ⟨hnm, ?_⟩
  simp only [is_valid_name]
  by_cases h1 : s.length < 2 ∨ 50 < s.length
  · rw [if_pos h1]
  · rw [if_neg h1]
    by_cases h2 : pyLower s ∈ BLACKLIST
    · rw [if_pos h2]
    · rw [if_neg h2]
      by_cases h3 : UI_WORDS.any (fun w => hasSub w.data (pyLower s).data)
      · rw [if_pos h3]
      · rw [if_neg h3]
        by_cases h4 : firstUpper s = false
        · rw [if_pos h4]
        · rw [if_neg h4]; exact hnm

/-- Witness for C10 at "Ab". -/
theorem two_char_names_rejected_witness :
    nameMatch "Ab" = false ∧ is_valid_name "Ab" = false :=
  two_char_names_rejected "Ab" (by decide)

/-- C5: the confidence tier is exactly the spec's pure function of the three
presence flags (all three yield "high"; name-and-email or email-and-phone
yield "medium"; anything else "low"), and ranks are monotone: a contact with
all three fields never scores below one with only email and phone, which
never scores below one with only email. -/
theorem confidence_tiers :
    (∀ c : Contact,
      calculate_confidence c = confidenceSpec (hasNameB c) (hasEmailB c) (hasPhoneB c)) ∧
    (∀ c₁ c₂ : Contact,
      hasNameB c₁ = true → hasEmailB c₁ = true → hasPhoneB c₁ = true →
      hasNameB c₂ = false → hasEmailB c₂ = true → hasPhoneB c₂ = true →
      confRank (calculate_confidence c₂) ≤ confRank (calculate_confidence c₁)) ∧
    (∀ c₂ c₃ : Contact,
      hasNameB c₂ = false → hasEmailB c₂ = true → hasPhoneB c₂ = true →
      hasNameB c₃ = false → hasEmailB c₃ = true → hasPhoneB c₃ = false →
      confRank (calculate_confidence c₃) ≤ confRank (calculate_confidence c₂)) := by
  refine ⟨fun c => rfl, ?_, ?_⟩
  · intro c₁ c₂ hn₁ he₁ hp₁ hn₂ he₂ hp₂
    simp [calculate_confidence, hn₁, he₁, hp₁, hn₂, he₂, hp₂, confRank]
  · intro c₂ c₃ hn₂ he₂ hp₂ hn₃ he₃ hp₃
    simp [calculate_confidence, hn₂, he₂, hp₂, hn₃, he₃, hp₃, confRank]

/-- Witness for C5: a name-email-phone contact outranks an email-phone one. -/
theorem confidence_tiers_witness :
    confRank (calculate_confidence
      ⟨none, "a@b.co", some "+1-212-555-0100", none, "pdf", "medium", none, none⟩) ≤
    confRank (calculate_confidence
      ⟨some "Jane Doe", "a@b.co", some "+1-212-555-0100", none, "pdf", "medium", none, none⟩) :=
  confidence_tiers.2.1 _ _ (by decide) (by decide) (by decide) (by decide) (by decide)
    (by decide)

/-- C7: no Contact produced by pairing and classification carries the literal
name "Unknown"; and when no spatial name was found and derivation from the
email local-part fails (returns the "Unknown" sentinel), the final name is
`none`. -/
theorem no_unknown_placeholder :
    (∀ (pcs : List PdfContact) (url : String) (c : Contact),
      c ∈ process_pdf_contacts pcs url → c.name ≠ some "Unknown") ∧
    (∀ pc : PdfContact, (pc.name = none ∨ pc.name = some "") →
      derive_name_from_email pc.email = "Unknown" → (processOne pc).name = none) := by
  constructor
  · intro pcs url c hc
    obtain ⟨pc, _, rfl⟩ := List.mem_map.mp hc
    simp only [processOne]
    split
    · simp
    · next h => simp [h]
  · intro pc hname hder
    rcases hname with h | h <;> simp [processOne, h, hder]

/-- Witness for C7: a generic mailbox with no spatial name yields no name. -/
theorem no_unknown_placeholder_witness :
    (processOne ⟨"info@acme.com", none, none, ⟨0, 0, 0⟩, 0⟩).name = none :=
  no_unknown_placeholder.2 ⟨"info@acme.com", none, none, ⟨0, 0, 0⟩, 0⟩ (Or.inl rfl)
    (by decide)

/-- C8: an empty token list, or a token list in which no email is found,
makes extraction return the empty contact list (the function is total: no
error is raised). -/
theorem empty_input_empty_output :
    extract_contacts_from_words [] = [] ∧
    ∀ ws : List PdfWord, find_emails_in_words ws = [] →
      extract_contacts_from_words ws = [] := by
  refine ⟨rfl, ?_⟩
  intro ws h
  by_cases he : ws.isEmpty <;> simp [extract_contacts_from_words, he, h]

/-- Witness for C8: a single email-free token yields no contacts. -/
theorem empty_input_empty_output_witness :
    extract_contacts_from_words [cw1] = [] :=
  empty_input_empty_output.2 [cw1] (by decide)

/-- Everything `consumeOpt p` consumes satisfies `p`. -/
theorem consumeOpt_fst_sat (p : Char → Bool) (cs : List Char) :
    ∀ c ∈ (consumeOpt p cs).1, p c = true := by
  cases cs with
  | nil => simp [consumeOpt]
  | cons a l =>
    simp only [consumeOpt]
    split
    · next hp => intro c hc; rw [List.mem_singleton.mp hc]; exact hp
    · simp

/-- `consumeDigits n` returns exactly `n` digit characters. -/
theorem consumeDigits_spec (n : Nat) :
    ∀ cs ds r : List Char, consumeDigits n cs = some (ds, r) →
      ds.length = n ∧ ∀ c ∈ ds, c.isDigit = true := by
  induction n with
  | zero =>
    intro cs ds r h
    simp [consumeDigits] at h
    obtain ⟨h1, _⟩ := h
    subst h1
    simp
  | succ n ih =>
    intro cs ds r h
    cases cs with
    | nil => simp [consumeDigits] at h
    | cons c cs' =>
      simp only [consumeDigits] at h
      by_cases hd : c.isDigit
      · rw [if_pos hd] at h
        cases hcd : consumeDigits n cs' with
        | none => rw [hcd] at h; simp at h
        | some pr =>
          obtain ⟨ds', r'⟩ := pr
          rw [hcd] at h
          simp only [Option.some.injEq, Prod.mk.injEq] at h
          obtain ⟨hds, _⟩ := h
          subst hds
          obtain ⟨ihl, ihm⟩ := ih cs' ds' r' hcd
          refine ⟨by simp [ihl], ?_⟩
          intro x hx
          rcases List.mem_cons.mp hx with rfl | hx'
          · exact hd
          · exact ihm x hx'
      · rw [if_neg hd] at h; simp at h

/-- Separator-class characters are never digits. -/
theorem sep_not_digit (c : Char) (h : isSepChar c = true) : c.isDigit = false := by
  have hc : c = '-' ∨ c = '.' ∨ c = ' ' ∨ c = '\t' ∨ c = '\n' ∨ c = '\r' ∨
      c = '\x0b' ∨ c = '\x0c' := by
    simpa [isSepChar, isSpaceChar, or_assoc] using h
  rcases hc with rfl | rfl | rfl | rfl | rfl | rfl | rfl | rfl <;> decide

/-- Any `PHONE_PATTERN` match contains exactly ten digit characters, grouped
3-3-4 by the pattern. -/
theorem matchPhoneAt_digits (cs m : List Char) (h : matchPhoneAt cs = some m) :
    ∃ d1 d2 d3 : List Char, d1.length = 3 ∧ d2.length = 3 ∧ d3.length = 4 ∧
      (∀ c ∈ d1, c.isDigit = true) ∧ (∀ c ∈ d2, c.isDigit = true) ∧
      (∀ c ∈ d3, c.isDigit = true) ∧
      m.filter Char.isDigit = d1 ++ d2 ++ d3 := by
  simp only [matchPhoneAt] at h
  split at h
  · exact absurd h (by simp)
  rename_i d1 r2 h1
  split at h
  · exact absurd h (by simp)
  rename_i d2 r5 h2
  split at h
  · exact absurd h (by simp)
  rename_i d3 r7 h3
  simp only [Option.some.injEq] at h
  obtain ⟨hl1, hm1⟩ := consumeDigits_spec 3 _ _ _ h1
  obtain ⟨hl2, hm2⟩ := consumeDigits_spec 3 _ _ _ h2
  obtain ⟨hl3, hm3⟩ := consumeDigits_spec 4 _ _ _ h3
  refine ⟨d1, d2, d3, hl1, hl2, hl3, hm1, hm2, hm3, ?_⟩
  rw [← h]
  have hnil : ∀ (p : Char → Bool) (l : List Char),
      (∀ c, p c = true → c.isDigit = false) → (∀ c ∈ l, p c = true) →
      l.filter Char.isDigit = [] := by
    intro p l hp hl
    refine List.filter_eq_nil_iff.mpr ?_
    intro a ha
    rw [hp a (hl a ha)]
    simp
  have e1 : ((consumeOpt (· == '(') cs).1).filter Char.isDigit = [] :=
    hnil _ _ (by intro c hc; rw [beq_iff_eq] at hc; subst hc; decide)
      (consumeOpt_fst_sat _ _)
  have e2 : ((consumeOpt (· == ')') r2).1).filter Char.isDigit = [] :=
    hnil _ _ (by intro c hc; rw [beq_iff_eq] at hc; subst hc; decide)
      (consumeOpt_fst_sat _ _)
  have e3 : ((consumeOpt isSepChar (consumeOpt (· == ')') r2).2).1).filter Char.isDigit = [] :=
    hnil _ _ sep_not_digit (consumeOpt_fst_sat _ _)
  have e4 : ((consumeOpt isSepChar r5).1).filter Char.isDigit = [] :=
    hnil _ _ sep_not_digit (consumeOpt_fst_sat _ _)
  have f1 : d1.filter Char.isDigit = d1 := List.filter_eq_self.mpr hm1
  have f2 : d2.filter Char.isDigit = d2 := List.filter_eq_self.mpr hm2
  have f3 : d3.filter Char.isDigit = d3 := List.filter_eq_self.mpr hm3
  simp [List.filter_append, e1, e2, e3, e4, f1, f2, f3]

/-- The leftmost `PHONE_PATTERN` match in any character list has the 3-3-4
digit structure. -/
theorem phoneScanFirst_digits (cs : List Char) :
    ∀ m, phoneScanFirst cs = some m →
      ∃ d1 d2 d3 : List Char, d1.length = 3 ∧ d2.length = 3 ∧ d3.length = 4 ∧
        (∀ c ∈ d1, c.isDigit = true) ∧ (∀ c ∈ d2, c.isDigit = true) ∧
        (∀ c ∈ d3, c.isDigit = true) ∧
        m.filter Char.isDigit = d1 ++ d2 ++ d3 := by
  induction cs with
  | nil => intro m h; simp [phoneScanFirst] at h
  | cons c cs' ih =>
    intro m h
    simp only [phoneScanFirst] at h
    cases hm : matchPhoneAt (c :: cs') with
    | some mm =>
      rw [hm] at h
      simp only [Option.some.injEq] at h
      subst h
      exact matchPhoneAt_digits _ _ hm
    | none =>
      rw [hm] at h
      exact ih m h

/-- Normalization of a raw match whose digits are a 3-3-4 grouping produces
exactly the `+1-` canonical form. -/
theorem normalize_canonical (ph : String) (d1 d2 d3 : List Char)
    (h1 : d1.length = 3) (h2 : d2.length = 3) (h3 : d3.length = 4)
    (hf : ph.data.filter Char.isDigit = d1 ++ d2 ++ d3) :
    normalize_phone ph = String.mk ('+' :: '1' :: '-' :: (d1 ++ '-' :: (d2 ++ '-' :: d3))) := by
  simp only [normalize_phone]
  rw [hf]
  have hlen : (d1 ++ d2 ++ d3).length = 10 := by simp [h1, h2, h3]
  rw [if_pos hlen]
  have ht : (d1 ++ d2 ++ d3).take 3 = d1 := by
    rw [List.append_assoc]; exact List.take_left' h1
  have hdr : (d1 ++ d2 ++ d3).drop 3 = d2 ++ d3 := by
    rw [List.append_assoc]; exact List.drop_left' h1
  have ht2 : (d2 ++ d3).take 3 = d2 := List.take_left' h2
  have hd6 : (d1 ++ d2 ++ d3).drop 6 = d3 := by
    refine List.drop_left' ?_
    simp [h1, h2]
  rw [ht, hdr, ht2, hd6]

/-- C9: whenever the phone search below an email returns a result, the result
is exactly "+1-" followed by a 3-3-4 digit grouping: the phone pattern always
captures exactly ten digit characters, so the defensive fallback branch of the
normalizer (returning an unnormalized raw match) is unreachable from the
pipeline. -/
theorem phone_result_canonical (e : PdfWord) (ws : List PdfWord) (sd xt : ℚ)
    (ph : String) (h : find_phone_below_email e ws sd xt = some ph) :
    ∃ d1 d2 d3 : List Char, d1.length = 3 ∧ d2.length = 3 ∧ d3.length = 4 ∧
      (∀ c ∈ d1, c.isDigit = true) ∧ (∀ c ∈ d2, c.isDigit = true) ∧
      (∀ c ∈ d3, c.isDigit = true) ∧
      ph = String.mk ('+' :: '1' :: '-' :: (d1 ++ '-' :: (d2 ++ '-' :: d3))) := by
  unfold find_phone_below_email at h
  cases hs : sortBySnd (phoneWindowCandidates e ws sd xt) with
  | nil => rw [hs] at h; simp at h
  | cons hd tl =>
    obtain ⟨ph0, dist0⟩ := hd
    rw [hs] at h
    simp only [Option.some.injEq] at h
    have hmem : (ph0, dist0) ∈ sortBySnd (phoneWindowCandidates e ws sd xt) := by
      rw [hs]; exact List.mem_cons_self _ _
    have hmem2 : (ph0, dist0) ∈ phoneWindowCandidates e ws sd xt := by
      unfold sortBySnd at hmem
      rwa [List.mem_insertionSort] at hmem
    obtain ⟨w, _, hfw⟩ := List.mem_filterMap.mp hmem2
    split at hfw
    · cases hpm : phoneFirstMatch w.text with
      | none => rw [hpm] at hfw; simp at hfw
      | some m =>
        rw [hpm] at hfw
        simp only [Option.some.injEq, Prod.mk.injEq] at hfw
        obtain ⟨hm0, _⟩ := hfw
        subst hm0
        unfold phoneFirstMatch at hpm
        cases hsc : phoneScanFirst w.text.data with
        | none => rw [hsc] at hpm; simp at hpm
        | some mm =>
          rw [hsc] at hpm
          simp only [Option.map_some', Option.some.injEq] at hpm
          obtain ⟨d1, d2, d3, hl1, hl2, hl3, hm1, hm2, hm3, hfd⟩ :=
            phoneScanFirst_digits w.text.data mm hsc
          refine ⟨d1, d2, d3, hl1, hl2, hl3, hm1, hm2, hm3, ?_⟩
          rw [← h]
          refine normalize_canonical _ _ _ _ hl1 hl2 hl3 ?_
          rw [← hpm]
          exact hfd
    · simp at hfw

/-- Witness for C9 at the scenario phone token. -/
theorem phone_result_canonical_witness :
    ∃ d1 d2 d3 : List Char, d1.length = 3 ∧ d2.length = 3 ∧ d3.length = 4 ∧
      (∀ c ∈ d1, c.isDigit = true) ∧ (∀ c ∈ d2, c.isDigit = true) ∧
      (∀ c ∈ d3, c.isDigit = true) ∧
      "+1-212-555-0100" = String.mk ('+' :: '1' :: '-' :: (d1 ++ '-' :: (d2 ++ '-' :: d3))) :=
  phone_result_canonical cw2 cws 40 100 "+1-212-555-0100" (by with_unfolding_all decide)

/-- ASCII lower-casing is idempotent. -/
theorem toLower_idem (c : Char) : c.toLower.toLower = c.toLower := by
  simp only [Char.toLower]
  by_cases h : c.toNat ≥ 65 ∧ c.toNat ≤ 90
  · rw [if_pos h]
    obtain ⟨h1, h2⟩ := h
    rw [ge_iff_le] at h1
    generalize c.toNat = n at h1 h2
    interval_cases n <;> decide
  · rw [if_neg h, if_neg h]

/-- `pyLower` is idempotent: its output is already in lower-cased canonical
form. -/
theorem pyLower_idem (s : String) : pyLower (pyLower s) = pyLower s := by
  show String.mk ((String.mk (s.data.map Char.toLower)).data.map Char.toLower) = _
  have hdata : (String.mk (s.data.map Char.toLower)).data = s.data.map Char.toLower := rfl
  rw [hdata, List.map_map]
  congr 1
  exact List.map_congr_left (fun a _ => toLower_idem a)

/-- Every email key produced by the email locator is lower-cased. -/
theorem find_emails_lower (ws : List PdfWord) :
    ∀ p ∈ find_emails_in_words ws, pyLower p.1 = p.1 := by
  intro p hp
  unfold find_emails_in_words at hp
  obtain ⟨w, _, hpm⟩ := List.mem_flatMap.mp hp
  obtain ⟨m, _, hme⟩ := List.mem_map.mp hpm
  rw [← hme]
  exact pyLower_idem m

/-- The per-email loop never emits two contacts with the same email: `seen`
tracks every email already emitted. -/
theorem extractLoop_nodup (ws : List PdfWord) :
    ∀ (pend : List (String × PdfWord)) (seen : List String) (acc : List PdfContact),
      (acc.map (fun c => c.email)).Nodup →
      (∀ c ∈ acc, c.email ∈ seen) →
      ((extractLoop ws pend seen acc).map (fun c => c.email)).Nodup := by
  intro pend
  induction pend with
  | nil =>
    intro seen acc h1 _
    simpa [extractLoop] using h1
  | cons p rest ih =>
    obtain ⟨et, ew⟩ := p
    intro seen acc h1 h2
    simp only [extractLoop]
    split
    · exact ih seen acc h1 h2
    · next hnot =>
      refine ih (et :: seen) (acc ++ [buildContact ws et ew]) ?_ ?_
      · rw [List.map_append, List.nodup_append]
        refine ⟨h1, by simp, ?_⟩
        intro a ha hb
        have hb' : a = et := by simpa [buildContact] using hb
        obtain ⟨c, hc, he⟩ := List.mem_map.mp ha
        have hcs := h2 c hc
        rw [he, hb'] at hcs
        exact hnot hcs
      · intro c hc
        rcases List.mem_append.mp hc with hc | hc
        · exact List.mem_cons_of_mem _ (h2 c hc)
        · rw [List.mem_singleton.mp hc]
          exact List.mem_cons_self _ _

/-- The per-email loop only builds contacts from the first pair carrying each
email key: `done` is the already-consumed part of the email list. -/
theorem extractLoop_first (ws : List PdfWord) (full : List (String × PdfWord)) :
    ∀ (pend done : List (String × PdfWord)) (seen : List String) (acc : List PdfContact),
      full = done ++ pend →
      (∀ t : String, t ∈ seen ↔ ∃ p ∈ done, p.1 = t) →
      (∀ c ∈ acc, ∃ w, full.find? (fun p => p.1 == c.email) = some (c.email, w) ∧
        c = buildContact ws c.email w) →
      ∀ c ∈ extractLoop ws pend seen acc,
        ∃ w, full.find? (fun p => p.1 == c.email) = some (c.email, w) ∧
          c = buildContact ws c.email w := by
  intro pend
  induction pend with
  | nil =>
    intro done seen acc _ _ hacc c hc
    exact hacc c (by simpa [extractLoop] using hc)
  | cons p rest ih =>
    obtain ⟨et, ew⟩ := p
    intro done seen acc hfull hseen hacc c hc
    simp only [extractLoop] at hc
    split at hc
    · next hin =>
      refine ih (done ++ [(et, ew)]) seen acc (by simp [hfull]) ?_ hacc c hc
      intro t
      rw [hseen t]
      constructor
      · rintro ⟨q, hq, rfl⟩
        exact ⟨q, List.mem_append_left _ hq, rfl⟩
      · rintro ⟨q, hq, rfl⟩
        rcases List.mem_append.mp hq with hq | hq
        · exact ⟨q, hq, rfl⟩
        · rw [List.mem_singleton.mp hq]
          exact (hseen et).mp hin
    · next hnin =>
      refine ih (done ++ [(et, ew)]) (et :: seen) (acc ++ [buildContact ws et ew])
        (by simp [hfull]) ?_ ?_ c hc
      · intro t
        constructor
        · intro ht
          rcases List.mem_cons.mp ht with heq | ht'
          · exact ⟨(et, ew), List.mem_append_right _ (List.mem_singleton_self _), heq.symm⟩
          · obtain ⟨q, hq, he⟩ := (hseen t).mp ht'
            exact ⟨q, List.mem_append_left _ hq, he⟩
        · rintro ⟨q, hq, rfl⟩
          rcases List.mem_append.mp hq with hq | hq
          · exact List.mem_cons_of_mem _ ((hseen q.1).mpr ⟨q, hq, rfl⟩)
          · rw [List.mem_singleton.mp hq]
            exact List.mem_cons_self _ _
      · intro c' hc'
        rcases List.mem_append.mp hc' with hc' | hc'
        · exact hacc c' hc'
        · rw [List.mem_singleton.mp hc']
          refine ⟨ew, ?_, rfl⟩
          have hbe : (buildContact ws et ew).email = et := rfl
          rw [hbe, hfull, List.find?_append]
          have hdone : done.find? (fun p => p.1 == et) = none := by
            rw [List.find?_eq_none]
            intro x hx hx'
            exact hnin ((hseen et).mpr ⟨x, hx, by simpa using hx'⟩)
          rw [hdone, Option.none_or]
          have hself : (((et, ew) : String × PdfWord).1 == et) = true := by simp
          simp [List.find?_cons, hself]

/-- C3: the pipeline emits at most one Contact per distinct lower-cased email
address, every output email is in lower-cased canonical form, and each
extracted contact is built from the first token pair (in input order)
carrying its email address. -/
theorem email_dedup (ws : List PdfWord) (url : String) :
    ((process_pdf_contacts (extract_contacts_from_words ws) url).map
        (fun c => c.email)).Nodup ∧
    (∀ c ∈ process_pdf_contacts (extract_contacts_from_words ws) url,
      pyLower c.email = c.email) ∧
    (∀ pc ∈ extract_contacts_from_words ws, ∃ w,
      (find_emails_in_words ws).find? (fun p => p.1 == pc.email) = some (pc.email, w) ∧
      pc = buildContact ws pc.email w) := by
  have hone : ∀ pc : PdfContact, (processOne pc).email = pc.email := fun pc => rfl
  have hthird : ∀ pc ∈ extract_contacts_from_words ws, ∃ w,
      (find_emails_in_words ws).find? (fun p => p.1 == pc.email) = some (pc.email, w) ∧
      pc = buildContact ws pc.email w := by
    intro pc hpc
    unfold extract_contacts_from_words at hpc
    split at hpc
    · simp at hpc
    · split at hpc
      · simp at hpc
      · exact extractLoop_first ws (find_emails_in_words ws) (find_emails_in_words ws)
          [] [] [] rfl (by simp) (by simp) pc hpc
  refine ⟨?_, ?_, hthird⟩
  · have hmap : (process_pdf_contacts (extract_contacts_from_words ws) url).map
        (fun c => c.email) = (extract_contacts_from_words ws).map (fun pc => pc.email) := by
      simp only [process_pdf_contacts, List.map_map]
      exact List.map_congr_left (fun pc _ => hone pc)
    rw [hmap]
    unfold extract_contacts_from_words
    split
    · simp
    · split
      · simp
      · exact extractLoop_nodup ws (find_emails_in_words ws) [] [] (by simp) (by simp)
  · intro c hc
    obtain ⟨pc, hpc, rfl⟩ := List.mem_map.mp (by simpa [process_pdf_contacts] using hc)
    rw [hone pc]
    obtain ⟨w, hfind, _⟩ := hthird pc hpc
    exact find_emails_lower ws _ (List.mem_of_find?_eq_some hfind)

/-- Witness for C3 at the scenario tokens. -/
theorem email_dedup_witness :
    ((process_pdf_contacts (extract_contacts_from_words cws) "u").map
        (fun c => c.email)).Nodup :=
  (email_dedup cws "u").1

/-- Every span emitted when a group is closed has passed the validator. -/
theorem flushGroup_valid (cur : List (PdfWord × ℚ)) :
    ∀ p ∈ flushGroup cur, is_valid_name p.1 = true := by
  intro p hp
  unfold flushGroup at hp
  split at hp
  · simp at hp
  · split at hp
    · next hv =>
      rw [List.mem_singleton.mp hp]
      exact hv
    · simp at hp

/-- Every span accumulated by the grouping loop has passed the validator. -/
theorem groupLoop_valid (l : List (PdfWord × ℚ)) :
    ∀ (nc : List (String × ℚ)) (cur : List (PdfWord × ℚ)) (ly lx : Option ℚ),
      (∀ p ∈ nc, is_valid_name p.1 = true) →
      ∀ p ∈ groupLoop l nc cur ly lx, is_valid_name p.1 = true := by
  induction l with
  | nil =>
    intro nc cur ly lx hnc p hp
    simp only [groupLoop] at hp
    rcases List.mem_append.mp hp with h | h
    · exact hnc p h
    · exact flushGroup_valid cur p h
  | cons hd tl ih =>
    obtain ⟨w, d⟩ := hd
    intro nc cur ly lx hnc p hp
    simp only [groupLoop] at hp
    split at hp
    · exact ih nc (cur ++ [(w, d)]) _ _ hnc p hp
    · refine ih (nc ++ flushGroup cur) [(w, d)] _ _ ?_ p hp
      intro q hq
      rcases List.mem_append.mp hq with h | h
      · exact hnc q h
      · exact flushGroup_valid cur q h

/-- Tokens outside the search window never change the candidate list. -/
theorem windowCandidates_filter (e : PdfWord) (ws : List PdfWord) (sd xt : ℚ) :
    windowCandidates e (ws.filter (fun w => inNameWindow e sd xt w)) sd xt =
    windowCandidates e ws sd xt := by
  unfold windowCandidates
  rw [List.filter_filter]
  congr 1
  apply List.filter_congr
  intro w _
  unfold nameCandidateFilter inNameWindow
  have hbool : ∀ b1 b2 b3 b4 : Bool,
      ((b1 && b2 && b3 && b4) && (b1 && b2 && b3)) = (b1 && b2 && b3 && b4) := by decide
  exact hbool _ _ _ _

/-- C2: the name search returns a validator-accepted grouped span of smallest
mean vertical distance (to the email top edge) among the spans grouped from
candidates inside the search window (same page, vertical band of 60 units
above the email top, 100 horizontal units around the email center), returns
`none` exactly when no span is accepted, and its result only depends on the
tokens inside the window — in particular a token 200 units above the email is
never selected. -/
theorem name_search_minimal (e : PdfWord) (ws : List PdfWord) :
    (∀ p ∈ nameSpans e ws 60 100, is_valid_name p.1 = true) ∧
    (find_name_above_email e ws 60 100 = none ↔ nameSpans e ws 60 100 = []) ∧
    (∀ n : String, find_name_above_email e ws 60 100 = some n →
      ∃ d : ℚ, (n, d) ∈ nameSpans e ws 60 100 ∧
        ∀ q ∈ nameSpans e ws 60 100, d ≤ q.2) ∧
    find_name_above_email e ws 60 100 =
      find_name_above_email e (ws.filter (fun w => inNameWindow e 60 100 w)) 60 100 := by
  refine ⟨?_, ?_, ?_, ?_⟩
  · exact groupLoop_valid _ [] [] none none (by simp)
  · unfold find_name_above_email
    by_cases hie : (windowCandidates e ws 60 100).isEmpty
    · rw [if_pos hie]
      have hwc : windowCandidates e ws 60 100 = [] := List.isEmpty_iff.mp hie
      have hns : nameSpans e ws 60 100 = [] := by
        unfold nameSpans
        rw [hwc]
        rfl
      simp [hns]
    · rw [if_neg hie]
      cases hs : sortBySnd (nameSpans e ws 60 100) with
      | nil =>
        have hns : nameSpans e ws 60 100 = [] := by
          have hperm := List.perm_insertionSort sndLE (nameSpans e ws 60 100)
          rw [show List.insertionSort sndLE (nameSpans e ws 60 100) =
            sortBySnd (nameSpans e ws 60 100) from rfl, hs] at hperm
          exact (List.Perm.nil_eq hperm).symm
        simp [hns]
      | cons hd tl =>
        obtain ⟨t, d⟩ := hd
        have hns : nameSpans e ws 60 100 ≠ [] := by
          intro hcon
          rw [hcon] at hs
          simp [sortBySnd, List.insertionSort] at hs
        simp [hns]
  · intro n hn
    unfold find_name_above_email at hn
    by_cases hie : (windowCandidates e ws 60 100).isEmpty
    · rw [if_pos hie] at hn
      simp at hn
    · rw [if_neg hie] at hn
      cases hs : sortBySnd (nameSpans e ws 60 100) with
      | nil =>
        rw [hs] at hn
        simp at hn
      | cons hd tl =>
        obtain ⟨t, d⟩ := hd
        rw [hs] at hn
        simp only [Option.some.injEq] at hn
        subst hn
        refine ⟨d, ?_, ?_⟩
        · have hmem : (t, d) ∈ sortBySnd (nameSpans e ws 60 100) := by
            rw [hs]
            exact List.mem_cons_self _ _
          unfold sortBySnd at hmem
          rwa [List.mem_insertionSort] at hmem
        · intro q hq
          have hq' : q ∈ sortBySnd (nameSpans e ws 60 100) := by
            unfold sortBySnd
            rwa [List.mem_insertionSort]
          rw [hs] at hq'
          rcases List.mem_cons.mp hq' with heq | hq''
          · rw [heq]
          · have hsorted := List.sorted_insertionSort sndLE (nameSpans e ws 60 100)
            rw [show List.insertionSort sndLE (nameSpans e ws 60 100) =
              sortBySnd (nameSpans e ws 60 100) from rfl, hs] at hsorted
            exact (List.sorted_cons.mp hsorted).1 q hq''
  · have hwc := windowCandidates_filter e ws 60 100
    simp only [find_name_above_email, nameSpans, hwc]

/-- Witness for C2: the scenario name span is accepted and of minimal mean
distance. -/
theorem name_search_minimal_witness :
    ∃ d : ℚ, ("Jane Doe", d) ∈ nameSpans cw2 cws 60 100 ∧
      ∀ q ∈ nameSpans cw2 cws 60 100, d ≤ q.2 :=
  (name_search_minimal cw2 cws).2.2.1 "Jane Doe" (by with_unfolding_all decide)

end PageScrape
